import Mathlib

/-!
A verification development for the price-tracker script (`script.py`).

The script maintains, per tracked product id, a latest price and a per-day
price history, computes period-over-period performance deltas, and posts a
per-owner report to a webhook.  The definitions below are a shallow
embedding of that script: dates become explicit year/month/day triples,
Python floats become rationals, JSON dictionaries become association
lists, fallible steps become `Option`/`Except`, and the module-level
fetch/update loop becomes an explicit fold threading the two stores
(`old_data`, `new_data`) plus the list of API calls made.

Definitions whose doc comments say "follows the spec's wording" are the
specification-side counterparts used in refinement statements; everything
else is translated directly from the source.
-/

namespace PriceTracker

/-- A calendar date, as produced by parsing a `"YYYY-MM-DD"` string. -/
structure Date where
  y : ℕ
  m : ℕ
  d : ℕ
deriving DecidableEq, Repr

/-- Calendar order on dates (`entry_date <= target_date` in the script):
lexicographic on year, month, day. -/
def dateLe (a b : Date) : Bool :=
  decide (a.y < b.y ∨ (a.y = b.y ∧ (a.m < b.m ∨ (a.m = b.m ∧ a.d ≤ b.d))))

/-- One history entry, the script's dict `{"date": ..., "market": ...}`. -/
structure Obs where
  date : Date
  market : ℚ
deriving DecidableEq, Repr

/-- Round-half-to-even to an integer, the rounding Python's `round` uses. -/
def roundHalfEven (q : ℚ) : ℤ :=
  let f := ⌊q⌋
  let r := q - f
  if r < 1 / 2 then f
  else if 1 / 2 < r then f + 1
  else if f % 2 = 0 then f else f + 1

/-- Python's `round(x, 2)`: round to two decimal places, half to even. -/
def round2 (q : ℚ) : ℚ := (roundHalfEven (q * 100) : ℚ) / 100

/-- The baseline scan of `calculate_performance` (and of
`get_total_baseline`): walk the history in reverse and take the first
entry whose date is at or before the target date. -/
def baselineEntry (history : List Obs) (target : Date) : Option Obs :=
  history.reverse.find? (fun e => dateLe e.date target)

/-- `calculate_performance(history, target_date)` from the script:
baseline from the reverse scan, latest from `history[-1]`, result
`round(latest - baseline, 2)`, `None` when either is missing. -/
def calculate_performance (history : List Obs) (target : Date) : Option ℚ :=
  match (baselineEntry history target).map Obs.market,
        (history.getLast?).map Obs.market with
  | some b, some l => some (round2 (l - b))
  | some _, none => none
  | none, _ => none

/-- Combine an optional previously picked observation with a new one,
keeping the one with the later date (the new one on ties). -/
def pickLater (acc : Option Obs) (e : Obs) : Option Obs :=
  match acc with
  | none => some e
  | some a => if dateLe a.date e.date then some e else some a

/-- Fold selecting, among the entries satisfying `p`, one with the
maximal date (the last such entry on ties). -/
def pickFold (p : Obs → Bool) (h : List Obs) : Option Obs :=
  h.foldl (fun acc e => if p e then pickLater acc e else acc) none

/-- Follows the spec's wording: the most recent observation whose date is
at or before the target date. -/
def mostRecentAtOrBefore (h : List Obs) (t : Date) : Option Obs :=
  pickFold (fun e => dateLe e.date t) h

/-- Follows the spec's wording: the chronologically last observation of a
history. -/
def chronLastObs (h : List Obs) : Option Obs :=
  pickFold (fun _ => true) h

/-- Follows the spec's wording: baseline is the price of the most recent
observation with date at or before the target, latest is the price of the
chronologically last observation, the result is latest minus baseline
rounded to two decimals, absent when either side is absent. -/
def performanceSince (h : List Obs) (t : Date) : Option ℚ :=
  match (mostRecentAtOrBefore h t).map Obs.market,
        (chronLastObs h).map Obs.market with
  | some b, some l => some (round2 (l - b))
  | some _, none => none
  | none, _ => none

/-- One element of the pricepoints payload: `printingType` and
`marketPrice` are both optional fields of the JSON object. -/
structure PricePoint where
  printingType : Option String
  marketPrice : Option ℚ
deriving DecidableEq, Repr

/-- Python truthiness of `entry.get("marketPrice")`: `None` is falsy and
so is the number `0.0`. -/
def truthyPrice : Option ℚ → Bool
  | none => false
  | some q => decide (q ≠ 0)

/-- The selection in `get_price`: first loop returns the first entry
tagged `"Foil"` whose `marketPrice` is truthy, second loop the first
entry tagged `"Normal"` whose `marketPrice` is truthy, else `None`. -/
def get_price (prices : List PricePoint) : Option ℚ :=
  match prices.find? (fun e => e.printingType == some "Foil" && truthyPrice e.marketPrice) with
  | some e => e.marketPrice
  | none =>
    match prices.find? (fun e => e.printingType == some "Normal" && truthyPrice e.marketPrice) with
    | some e => e.marketPrice
    | none => none

/-- Follows the spec's wording (with truthiness in place of the spec's
non-null test): prefer a Foil entry with a truthy market price, else a
Normal entry with a truthy market price, else absent. -/
def selectPriceSpec (prices : List PricePoint) : Option ℚ :=
  match prices.filter (fun e => e.printingType == some "Foil" && truthyPrice e.marketPrice) with
  | e :: _ => e.marketPrice
  | [] =>
    match prices.filter (fun e => e.printingType == some "Normal" && truthyPrice e.marketPrice) with
    | e :: _ => e.marketPrice
    | [] => none

/-- A persisted per-item record `{"price": ..., "history": [...]}`; the
`price` field is read with `.get`, hence optional. -/
structure ItemRecord where
  price : Option ℚ
  history : List Obs
deriving DecidableEq, Repr

/-- A JSON-object store mapping product id to record, as an association
list. -/
def Store := List (String × ItemRecord)

instance : DecidableEq Store := fun a b => List.hasDecEq a b

/-- `store.get(pid)`. -/
def lookupStore (s : Store) (pid : String) : Option ItemRecord :=
  (s.find? (fun kv => kv.1 == pid)).map Prod.snd

/-- `pid in store` as a boolean. -/
def memStore (s : Store) (pid : String) : Bool :=
  (lookupStore s pid).isSome

/-- `store[pid] = r`: replace the binding if the key is present,
otherwise append it. -/
def setStore (s : Store) (pid : String) (r : ItemRecord) : Store :=
  match s with
  | [] => [(pid, r)]
  | (k, v) :: rest => if k == pid then (k, r) :: rest else (k, v) :: setStore rest pid r

/-- `store.get(pid, {}).get("price")`. -/
def priceOf (s : Store) (pid : String) : Option ℚ :=
  (lookupStore s pid).bind ItemRecord.price

/-- `store.get(pid, {}).get("history", [])`. -/
def historyOf (s : Store) (pid : String) : List Obs :=
  ((lookupStore s pid).map ItemRecord.history).getD []

/-- `any(entry["date"] == today_str for entry in history)`. -/
def hasDate (h : List Obs) (d : Date) : Bool :=
  h.any (fun e => e.date == d)

/-- `update_price_history(pid, market_price)` from the script, applied to
the history the record currently holds: append today's observation only
when no observation for that exact date exists yet. -/
def update_price_history (h : List Obs) (today : Date) (price : ℚ) : List Obs :=
  if hasDate h today then h else h ++ [⟨today, price⟩]

/-- The spec's `recordObservation(record, date, price)`: the history
update of `update_price_history` together with the unconditional
overwrite `new_data[pid]["price"] = price` of the fetch loop. -/
def recordObservation (r : ItemRecord) (d : Date) (p : ℚ) : ItemRecord :=
  { price := some p, history := update_price_history r.history d p }

/-- One successful-fetch body of the loop, acting on the pair
`(old_data, new_data)`.  `update_price_history` reads the record held in
`old_data`; because the Python code appends to that very list object, an
append is also visible in `old_data` when the id is present there. -/
def fetchStep (old nd : Store) (pid : String) (today : Date) (price : ℚ) :
    Store × Store :=
  match lookupStore old pid with
  | some r =>
      let r' := recordObservation r today price
      (setStore old pid { price := r.price, history := r'.history },
       setStore nd pid r')
  | none =>
      (old, setStore nd pid (recordObservation ⟨none, []⟩ today price))

/-- One iteration of the inner fetch loop: call `get_price(pid)`
(recorded in the call trace), and on success merge the price into the
stores. -/
def fetchLoopStep (fetch : String → Option ℚ) (today : Date)
    (acc : (Store × Store) × List String) (pid : String) :
    (Store × Store) × List String :=
  match fetch pid with
  | none => (acc.1, acc.2 ++ [pid])
  | some price => (fetchStep acc.1.1 acc.1.2 pid today price, acc.2 ++ [pid])

/-- The full fetch/update loop over `user_cards`: for every owner, for
every listed id, fetch and merge.  Returns the final
`(old_data, new_data)` pair and the trace of product ids passed to
`get_price`. -/
def runFetch (fetch : String → Option ℚ) (today : Date) (old : Store)
    (catalog : List (String × List String)) :
    (Store × Store) × List String :=
  catalog.foldl (fun acc entry => entry.2.foldl (fetchLoopStep fetch today) acc)
    ((old, []), [])

/-- A raw persisted JSON value for one item: a bare float, a bare
integer, or an object record (the shapes the claims need). -/
inductive JValue where
  | jfloat (q : ℚ)
  | jint (n : ℤ)
  | jobj (price : Option ℚ) (history : List Obs)
deriving DecidableEq, Repr

/-- A freshly parsed persisted store. -/
def RawStore := List (String × JValue)

instance : DecidableEq RawStore := fun a b => List.hasDecEq a b

/-- The in-place legacy upgrade loop run after `json.load`: an entry
passes `isinstance(value, float)` exactly when it is a bare float, and
only then is rewritten to `{"price": value, "history": []}`. -/
def upgradeStore (raw : RawStore) : RawStore :=
  raw.map (fun kv =>
    (kv.1, match kv.2 with
           | JValue.jfloat q => JValue.jobj (some q) []
           | v => v))

/-- The load of `DATA_FILE` at module top level.  The outer `Option` is
whether the file exists; the inner `Option` is whether its contents
parse as JSON.  A missing file yields the empty store; `json.load` of an
unparsable file raises, and no handler catches it, so the run aborts. -/
def loadStore (file : Option (Option RawStore)) : Except Unit RawStore :=
  match file with
  | none => Except.ok []
  | some none => Except.error ()
  | some (some raw) => Except.ok (upgradeStore raw)

/-- The final `requests.post(DISCORD_WEBHOOK_URL, ...)`: posting to a
`None` URL raises inside the HTTP library, and no handler catches it. -/
def sendWebhook (url : Option String) : Except Unit Unit :=
  match url with
  | none => Except.error ()
  | some _ => Except.ok ()

/-- The run after loading: fetch and merge, write `new_data` to
`DATA_FILE` (the first component is the saved store), then post to the
webhook (the second component is the outcome of that final step, which
happens after the save). -/
def runPipeline (url : Option String) (fetch : String → Option ℚ)
    (old : Store) (today : Date) (catalog : List (String × List String)) :
    Store × Except Unit Unit :=
  ((runFetch fetch today old catalog).1.2, sendWebhook url)

/-- Python's `x or 0` applied to an optional price: `None` and `0.0` are
both falsy. -/
def orZero : Option ℚ → ℚ
  | none => 0
  | some q => if q = 0 then 0 else q

/-- `sorted(ids, key=lambda pid: new_data.get(pid, {}).get("price") or 0,
reverse=True)`. -/
def sortedIds (nd : Store) (ids : List String) : List String :=
  ids.mergeSort (fun a b => decide (orZero (priceOf nd b) ≤ orZero (priceOf nd a)))

/-- The `total_value` accumulation: add the current price of every item
that has one. -/
def total_value (nd : Store) (ids : List String) : ℚ :=
  ids.foldl (fun acc pid =>
    match priceOf nd pid with
    | some p => acc + p
    | none => acc) 0

/-- `get_total_baseline(target_date)` from the script: per item, rescan
the (new) history for a baseline at or before the target, and add it when
found; items without a baseline contribute nothing. -/
def get_total_baseline (nd : Store) (ids : List String) (target : Date) : ℚ :=
  ids.foldl (fun acc pid =>
    match (baselineEntry (historyOf nd pid) target).map Obs.market with
    | some b => acc + b
    | none => acc) 0

/-- The rendered per-owner aggregate delta for one period
(`total_value - get_total_baseline(target)`, both computed over the
sorted id list as in the script). -/
def totalPeriodDelta (nd : Store) (ids : List String) (target : Date) : ℚ :=
  total_value nd (sortedIds nd ids) - get_total_baseline nd (sortedIds nd ids) target

/-- Follows the spec's wording: the owner's current total, the sum of the
current prices of the owner's items that have a known price. -/
def currentTotal (nd : Store) (ids : List String) : ℚ :=
  (ids.filterMap (fun pid => priceOf nd pid)).sum

/-- Follows the spec's wording: the aggregate baseline, the sum over the
owner's items of each item's baseline at the target date, an item with no
baseline contributing zero. -/
def baselineSum (nd : Store) (ids : List String) (target : Date) : ℚ :=
  (ids.filterMap (fun pid => (baselineEntry (historyOf nd pid) target).map Obs.market)).sum

/-- Date order between observations, the invariant of a stored
`PriceHistory` (entries are appended in calendar order, one per day). -/
def obsLe (a b : Obs) : Prop := dateLe a.date b.date = true

instance : DecidableRel obsLe := fun a b => by unfold obsLe; infer_instance

end PriceTracker

namespace PriceTracker

theorem dateLe_refl (d : Date) : dateLe d d = true := by
  simp [dateLe]

theorem pickFold_concat (p : Obs → Bool) (ys : List Obs) (y : Obs) :
    pickFold p (ys ++ [y]) = if p y then pickLater (pickFold p ys) y else pickFold p ys := by
  unfold pickFold
  rw [List.foldl_append]
  rfl

theorem pickFold_go_mem (p : Obs → Bool) :
    ∀ (h : List Obs) (acc : Option Obs) (e : Obs),
      h.foldl (fun acc x => if p x then pickLater acc x else acc) acc = some e →
      acc = some e ∨ e ∈ h := by
  intro h
  induction h with
  | nil => intro acc e he; exact Or.inl he
  | cons x t ih =>
    intro acc e he
    rw [List.foldl_cons] at he
    rcases ih _ e he with h1 | h1
    · by_cases hp : p x = true
      · rw [if_pos hp] at h1
        cases acc with
        | none =>
          simp only [pickLater, Option.some.injEq] at h1
          subst h1
          exact Or.inr (List.mem_cons_self x t)
        | some a =>
          by_cases hd : dateLe a.date x.date = true
          · simp only [pickLater, hd, if_true, Option.some.injEq] at h1
            subst h1
            exact Or.inr (List.mem_cons_self x t)
          · simp only [pickLater, hd, if_false, Bool.false_eq_true] at h1
            exact Or.inl h1
      · rw [if_neg hp] at h1
        exact Or.inl h1
    · exact Or.inr (List.mem_cons_of_mem x h1)

theorem pickFold_mem (p : Obs → Bool) (h : List Obs) (e : Obs)
    (he : pickFold p h = some e) : e ∈ h := by
  rcases pickFold_go_mem p h none e he with h1 | h1
  · exact absurd h1 (by simp)
  · exact h1

theorem pickFold_sorted (p : Obs → Bool) :
    ∀ (h : List Obs), List.Pairwise obsLe h → pickFold p h = h.reverse.find? p := by
  intro h
  induction h using List.reverseRecOn with
  | nil => intro _; rfl
  | append_singleton ys y ih =>
    intro hs
    have hsp := List.pairwise_append.mp hs
    rw [pickFold_concat, List.reverse_append]
    simp only [List.reverse_cons, List.reverse_nil, List.nil_append, List.singleton_append]
    by_cases hp : p y = true
    · rw [if_pos hp, List.find?_cons_of_pos _ hp]
      cases hacc : pickFold p ys with
      | none => rfl
      | some a =>
        have ha : a ∈ ys := pickFold_mem p ys a hacc
        have hle : dateLe a.date y.date = true := hsp.2.2 a ha y (by simp)
        simp [pickLater, hle]
    · rw [if_neg hp, List.find?_cons_of_neg _ (by simp [hp])]
      exact ih hsp.1

theorem chronLastObs_sorted (h : List Obs) (hs : List.Pairwise obsLe h) :
    chronLastObs h = h.getLast? := by
  unfold chronLastObs
  rw [pickFold_sorted _ h hs, List.getLast?_eq_head?_reverse]
  cases h.reverse with
  | nil => rfl
  | cons a t => rfl

theorem mostRecent_sorted (h : List Obs) (t : Date) (hs : List.Pairwise obsLe h) :
    mostRecentAtOrBefore h t = baselineEntry h t := by
  unfold mostRecentAtOrBefore baselineEntry
  exact pickFold_sorted _ h hs

end PriceTracker

namespace PriceTracker

/-- Claim C1: for every date-ordered price history and every target date,
`calculate_performance` returns the chronologically last price minus the
price of the most recent observation at or before the target, rounded to
two decimals (the spec's `performanceSince`); it returns absent on an
empty history and when no observation is at or before the target. -/
theorem C1_calculate_performance_spec (history : List Obs) (target : Date) :
    (List.Pairwise obsLe history →
      calculate_performance history target = performanceSince history target)
    ∧ (history = [] → calculate_performance history target = none)
    ∧ ((∀ e ∈ history, dateLe e.date target = false) →
      calculate_performance history target = none) := by
  refine ⟨?_, ?_, ?_⟩
  · intro hs
    unfold calculate_performance performanceSince
    rw [mostRecent_sorted history target hs, chronLastObs_sorted history hs]
  · intro h
    subst h
    rfl
  · intro hnone
    have hb : baselineEntry history target = none := by
      unfold baselineEntry
      rw [List.find?_eq_none]
      intro e he
      simp [hnone e (List.mem_reverse.mp he)]
    unfold calculate_performance
    rw [hb]
    rfl

/-- Witness for C1 at the spec's concrete example: history
2025-01-01 at 10, 2025-01-10 at 12, 2025-01-20 at 9, target 2025-01-15
gives latest 9 minus baseline 12, so -3.00; the empty history and a
target before every observation give absent. -/
theorem C1_witness :
    calculate_performance
        [⟨⟨2025, 1, 1⟩, 10⟩, ⟨⟨2025, 1, 10⟩, 12⟩, ⟨⟨2025, 1, 20⟩, 9⟩] ⟨2025, 1, 15⟩
      = performanceSince
        [⟨⟨2025, 1, 1⟩, 10⟩, ⟨⟨2025, 1, 10⟩, 12⟩, ⟨⟨2025, 1, 20⟩, 9⟩] ⟨2025, 1, 15⟩
    ∧ calculate_performance
        [⟨⟨2025, 1, 1⟩, 10⟩, ⟨⟨2025, 1, 10⟩, 12⟩, ⟨⟨2025, 1, 20⟩, 9⟩] ⟨2025, 1, 15⟩
      = some (-3)
    ∧ calculate_performance ([] : List Obs) ⟨2025, 1, 15⟩ = none
    ∧ calculate_performance [⟨⟨2025, 1, 10⟩, 12⟩] ⟨2025, 1, 5⟩ = none :=
  ⟨(C1_calculate_performance_spec _ _).1 (by decide),
   by
     have h : calculate_performance
         [⟨⟨2025, 1, 1⟩, 10⟩, ⟨⟨2025, 1, 10⟩, 12⟩, ⟨⟨2025, 1, 20⟩, 9⟩] ⟨2025, 1, 15⟩
         = some (round2 ((9 : ℚ) - 12)) := rfl
     rw [h]
     norm_num [round2, roundHalfEven],
   (C1_calculate_performance_spec _ _).2.1 rfl,
   (C1_calculate_performance_spec _ _).2.2 (by decide)⟩

theorem hasDate_append_today (h : List Obs) (d : Date) (p : ℚ) :
    hasDate (h ++ [⟨d, p⟩]) d = true := by
  simp [hasDate]

/-- Claim C2: `recordObservation` is idempotent per date: recording for
the same date twice, first with price `p₁` and then with `p₂`, leaves the
history identical to recording once with `p₁` (no duplicate same-day
entry), while the latest-price field is overwritten to `p₂`. -/
theorem C2_recordObservation_idempotent (r : ItemRecord) (d : Date) (p₁ p₂ : ℚ) :
    (recordObservation (recordObservation r d p₁) d p₂).history
      = (recordObservation r d p₁).history
    ∧ (recordObservation (recordObservation r d p₁) d p₂).price = some p₂ := by
  refine ⟨?_, rfl⟩
  unfold recordObservation update_price_history
  by_cases hd : hasDate r.history d = true
  · simp [hd]
  · simp [hd, hasDate_append_today]

theorem round2_zero : round2 0 = 0 := by
  norm_num [round2, roundHalfEven]

/-- Claim C8: a history with exactly one observation yields an all-time
delta (performance against the date of its earliest, i.e. only,
observation) of 0.00, not absent. -/
theorem C8_single_observation_all_time (e : Obs) :
    calculate_performance [e] e.date = some 0 := by
  unfold calculate_performance baselineEntry
  simp [List.find?, dateLe_refl, round2_zero]

end PriceTracker

namespace PriceTracker

/-- Counterexample to claim C3: a present-but-unparsable persisted store
does not load as the empty mapping — the uncaught `json.load` failure
aborts the run. -/
theorem C3_counterexample :
    loadStore (some none) = Except.error ()
    ∧ loadStore (some none) ≠ Except.ok ([] : RawStore) :=
  ⟨rfl, fun h => Except.noConfusion h⟩

/-- Claim C3 as amended: an absent persisted store loads as the empty
mapping and the run continues, but an unparsable one raises out of
`json.load` and aborts the run; a parsable store loads upgraded. -/
theorem C3_amended_load :
    loadStore none = Except.ok ([] : RawStore)
    ∧ loadStore (some none) = Except.error ()
    ∧ ∀ raw : RawStore, loadStore (some (some raw)) = Except.ok (upgradeStore raw) :=
  ⟨rfl, rfl, fun _ => rfl⟩

/-- Claim C5: the legacy-upgrade branch tests `isinstance(value, float)`,
so a bare float is upgraded to a record as the spec says, but a bare
integer — equally a legacy "just price" entry — is left as a bare
number, losing the promised upgrade. -/
theorem C5_legacy_upgrade_misses_int :
    upgradeStore [("123", JValue.jint 4)] = [("123", JValue.jint 4)]
    ∧ upgradeStore [("123", JValue.jfloat (9 / 2))]
        = [("123", JValue.jobj (some (9 / 2)) [])] :=
  ⟨rfl, rfl⟩

/-- Counterexample to claim C6: a payload whose only entry is tagged
Foil with the non-null market price 0 resolves to absent, because the
code tests Python truthiness of the price, not nullness. -/
theorem C6_counterexample :
    get_price [⟨some "Foil", some 0⟩] = none
    ∧ (⟨some "Foil", some 0⟩ : PricePoint).marketPrice ≠ none := by
  refine ⟨rfl, ?_⟩
  simp

/-- Claim C10 as amended: the persisted store is written before the
webhook step and does not depend on the webhook URL, so its content is
the same whether or not the URL is set; but an unset URL is not a logged
no-op — the final post raises and the run ends in error (after the
save). -/
theorem C10_amended_delivery :
    (∀ (u₁ u₂ : Option String) (fetch : String → Option ℚ) (old : Store)
        (today : Date) (catalog : List (String × List String)),
        (runPipeline u₁ fetch old today catalog).1
          = (runPipeline u₂ fetch old today catalog).1)
    ∧ (∀ (fetch : String → Option ℚ) (old : Store) (today : Date)
        (catalog : List (String × List String)),
        (runPipeline none fetch old today catalog).2 = Except.error ()) :=
  ⟨fun _ _ _ _ _ _ => rfl, fun _ _ _ _ => rfl⟩

/-- Counterexample to claim C10: with the webhook URL unset the run does
not end as a merely-logged non-fatal condition — the delivery step is an
uncaught error. -/
theorem C10_counterexample :
    (runPipeline none (fun _ => some 1) [] ⟨2025, 1, 1⟩ [("A", ["X"])]).2
      = Except.error ()
    ∧ (runPipeline none (fun _ => some 1) [] ⟨2025, 1, 1⟩ [("A", ["X"])]).2
      ≠ Except.ok () :=
  ⟨rfl, fun h => Except.noConfusion h⟩

end PriceTracker

namespace PriceTracker

theorem foldl_match_sum (f : String → Option ℚ) :
    ∀ (l : List String) (a : ℚ),
      l.foldl (fun acc pid =>
        match f pid with
        | some p => acc + p
        | none => acc) a
        = a + (l.filterMap f).sum := by
  intro l
  induction l with
  | nil => intro a; simp
  | cons x t ih =>
    intro a
    rw [List.foldl_cons]
    cases hf : f x with
    | none => simp only [hf]; rw [ih, List.filterMap_cons_none hf]
    | some p =>
      simp only [hf]
      rw [ih, List.filterMap_cons_some hf]
      simp [List.sum_cons]
      ring

theorem sortedIds_perm (nd : Store) (ids : List String) :
    (sortedIds nd ids).Perm ids := by
  unfold sortedIds
  exact List.mergeSort_perm ids _

/-- Claim C7: the rendered per-owner aggregate delta for a period equals
the owner's current total (sum of known current prices) minus the sum of
the items' baselines at that period's target date, items without a
baseline contributing zero to the baseline sum while their current price
still counts in the total. -/
theorem C7_aggregate_delta (nd : Store) (ids : List String) (target : Date) :
    totalPeriodDelta nd ids target = currentTotal nd ids - baselineSum nd ids target := by
  have hperm : (sortedIds nd ids).Perm ids := sortedIds_perm nd ids
  unfold totalPeriodDelta total_value get_total_baseline currentTotal baselineSum
  rw [foldl_match_sum (fun pid => priceOf nd pid),
      foldl_match_sum (fun pid => (baselineEntry (historyOf nd pid) target).map Obs.market),
      ((hperm.filterMap (fun pid => priceOf nd pid))).sum_eq,
      ((hperm.filterMap (fun pid => (baselineEntry (historyOf nd pid) target).map Obs.market))).sum_eq]
  ring

end PriceTracker

namespace PriceTracker

theorem lookupStore_setStore :
    ∀ (s : Store) (pid q : String) (r : ItemRecord),
      lookupStore (setStore s pid r) q = if q = pid then some r else lookupStore s q := by
  intro s
  induction s with
  | nil =>
    intro pid q r
    by_cases h : q = pid
    · simp [setStore, lookupStore, List.find?, h]
    · have h2 : (pid == q) = false := by simp [beq_iff_eq]; exact fun hc => h hc.symm
      simp [setStore, lookupStore, List.find?, h, h2]
  | cons kv rest ih =>
    intro pid q r
    by_cases h1 : kv.1 = pid
    · have hb : (kv.1 == pid) = true := by simp [h1]
      by_cases h2 : q = pid
      · have hbq : (kv.1 == q) = true := by simp [h1, h2]
        simp [setStore, lookupStore, List.find?, hb, hbq, h2]
      · have hbq : (kv.1 == q) = false := by
          simp [beq_iff_eq, h1]
          exact fun hc => h2 hc.symm
        simp [setStore, lookupStore, List.find?, hb, hbq, h2]
    · have hb : (kv.1 == pid) = false := by simp [beq_iff_eq, h1]
      by_cases h3 : kv.1 = q
      · have h4 : ¬ q = pid := fun hc => h1 (h3.trans hc)
        have hbq : (kv.1 == q) = true := by simp [h3]
        simp [setStore, lookupStore, List.find?, hb, hbq, h4]
      · have hbq : (kv.1 == q) = false := by simp [beq_iff_eq, h3]
        simp only [setStore, hb, if_false, Bool.false_eq_true]
        simp only [lookupStore, List.find?, hbq]
        exact ih pid q r
  
theorem memStore_setStore (s : Store) (pid q : String) (r : ItemRecord) :
    memStore (setStore s pid r) q = (q == pid || memStore s q) := by
  rw [memStore, lookupStore_setStore]
  by_cases h : q = pid
  · simp [h]
  · simp [memStore, h]

theorem fetchStep_snd (old nd : Store) (pid : String) (today : Date) (price : ℚ) :
    (fetchStep old nd pid today price).2
      = setStore nd pid
          (recordObservation ((lookupStore old pid).getD ⟨none, []⟩) today price) := by
  unfold fetchStep
  cases h : lookupStore old pid <;> simp [h]

theorem runItems_mem (fetch : String → Option ℚ) (today : Date) (q : String) :
    ∀ (ids : List String) (acc : (Store × Store) × List String),
      memStore ((ids.foldl (fetchLoopStep fetch today) acc).1.2) q = true
        ↔ (memStore acc.1.2 q = true ∨ (q ∈ ids ∧ (fetch q).isSome = true)) := by
  intro ids
  induction ids with
  | nil => intro acc; simp
  | cons pid t ih =>
    intro acc
    rw [List.foldl_cons, ih]
    cases hf : fetch pid with
    | none =>
      simp only [fetchLoopStep, hf]
      by_cases hq : q = pid
      · subst hq
        simp [hf]
      · simp [List.mem_cons, hq]
    | some price =>
      simp only [fetchLoopStep, hf]
      rw [fetchStep_snd, memStore_setStore]
      by_cases hq : q = pid
      · subst hq
        simp [hf]
      · simp [List.mem_cons, hq]

theorem runCatalog_mem (fetch : String → Option ℚ) (today : Date) (q : String) :
    ∀ (catalog : List (String × List String)) (acc : (Store × Store) × List String),
      memStore ((catalog.foldl
          (fun a entry => entry.2.foldl (fetchLoopStep fetch today) a) acc).1.2) q = true
        ↔ (memStore acc.1.2 q = true
            ∨ (q ∈ (catalog.map Prod.snd).flatten ∧ (fetch q).isSome = true)) := by
  intro catalog
  induction catalog with
  | nil => intro acc; simp
  | cons entry t ih =>
    intro acc
    rw [List.foldl_cons, ih, runItems_mem]
    simp only [List.map_cons, List.flatten_cons, List.mem_append]
    tauto

/-- Claim C4 as amended: item records are not carried over — the store
saved at the end of a run holds exactly the item ids that appear in the
catalog and were fetched successfully this run; a loaded record whose
fetch fails, or whose id is no longer in the catalog, is dropped by the
end-of-run save. -/
theorem C4_amended_keys (fetch : String → Option ℚ) (today : Date) (old : Store)
    (catalog : List (String × List String)) (pid : String) :
    memStore ((runFetch fetch today old catalog).1.2) pid = true
      ↔ (pid ∈ (catalog.map Prod.snd).flatten ∧ (fetch pid).isSome = true) := by
  unfold runFetch
  rw [runCatalog_mem]
  simp [memStore, lookupStore, List.find?]

/-- Witness for C4 as amended: an id in the catalog whose fetch succeeds
is present in the saved store. -/
theorem C4_witness :
    memStore ((runFetch (fun _ => some 1) ⟨2025, 1, 2⟩ [] [("A", ["X"])]).1.2) "X" = true :=
  (C4_amended_keys (fun _ => some 1) ⟨2025, 1, 2⟩ [] [("A", ["X"])] "X").mpr
    ⟨by simp, rfl⟩

/-- Counterexample to claim C4: item "A" is present in the loaded store,
its fetch fails this run, and the saved store no longer contains it. -/
theorem C4_counterexample :
    memStore [("A", (⟨some 1, []⟩ : ItemRecord))] "A" = true
    ∧ memStore ((runFetch (fun _ => none) ⟨2025, 1, 2⟩
          [("A", ⟨some 1, []⟩)] [("Ben", ["A"])]).1.2) "A" = false :=
  ⟨rfl, rfl⟩

theorem runItems_calls (fetch : String → Option ℚ) (today : Date) :
    ∀ (ids : List String) (acc : (Store × Store) × List String),
      (ids.foldl (fetchLoopStep fetch today) acc).2 = acc.2 ++ ids := by
  intro ids
  induction ids with
  | nil => intro acc; simp
  | cons pid t ih =>
    intro acc
    rw [List.foldl_cons]
    cases hf : fetch pid with
    | none =>
      rw [ih]
      simp [fetchLoopStep, hf]
    | some p =>
      rw [ih]
      simp [fetchLoopStep, hf]

theorem runCatalog_calls (fetch : String → Option ℚ) (today : Date) :
    ∀ (catalog : List (String × List String)) (acc : (Store × Store) × List String),
      (catalog.foldl (fun a entry => entry.2.foldl (fetchLoopStep fetch today) a) acc).2
        = acc.2 ++ (catalog.map Prod.snd).flatten := by
  intro catalog
  induction catalog with
  | nil => intro acc; simp
  | cons entry t ih =>
    intro acc
    rw [List.foldl_cons, ih, runItems_calls]
    simp [List.flatten_cons, List.append_assoc]

/-- Claim C9 as amended: the pricing API is called once per catalog
occurrence, in catalog order — the call trace of a run is exactly the
concatenation of all owners' id lists, so an id referenced by several
owners (or listed twice under one owner) is fetched once per reference,
not once per run. -/
theorem C9_amended_calls (fetch : String → Option ℚ) (today : Date) (old : Store)
    (catalog : List (String × List String)) :
    (runFetch fetch today old catalog).2 = (catalog.map Prod.snd).flatten := by
  unfold runFetch
  rw [runCatalog_calls]
  simp

/-- Counterexample to claim C9: an id referenced by two owners is passed
to `get_price` twice in one run, not once. -/
theorem C9_counterexample :
    ((runFetch (fun _ => some 1) ⟨2025, 1, 1⟩ [] [("A", ["X"]), ("B", ["X"])]).2).count "X" = 2
    ∧ ((runFetch (fun _ => some 1) ⟨2025, 1, 1⟩ [] [("A", ["X"]), ("B", ["X"])]).2).count "X" ≠ 1 := by
  have h : ((runFetch (fun _ => some 1) ⟨2025, 1, 1⟩ [] [("A", ["X"]), ("B", ["X"])]).2).count "X" = 2 := rfl
  exact ⟨h, by omega⟩

end PriceTracker

namespace PriceTracker

/-- Claim C6 as amended: `get_price` returns the market price of the
first entry tagged Foil whose market price is truthy (non-null and
non-zero) when one exists, else of the first such Normal entry, else
absent — `selectPriceSpec` — and the spec's concrete examples hold:
Normal 5 with Foil 8 gives 8, Normal 5 alone gives 5, and a payload with
neither tag or with null prices gives absent. -/
theorem C6_amended_selection :
    (∀ prices : List PricePoint, get_price prices = selectPriceSpec prices)
    ∧ get_price [⟨some "Normal", some 5⟩, ⟨some "Foil", some 8⟩] = some 8
    ∧ get_price [⟨some "Normal", some 5⟩] = some 5
    ∧ get_price [⟨some "Other", some 7⟩, ⟨some "Foil", none⟩, ⟨some "Normal", none⟩] = none := by
  refine ⟨?_, rfl, rfl, rfl⟩
  intro prices
  unfold get_price selectPriceSpec
  rw [show prices.find? (fun e => e.printingType == some "Foil" && truthyPrice e.marketPrice)
        = (prices.filter (fun e => e.printingType == some "Foil" && truthyPrice e.marketPrice)).head?
      from (List.filter_head? _ _).symm]
  rw [show prices.find? (fun e => e.printingType == some "Normal" && truthyPrice e.marketPrice)
        = (prices.filter (fun e => e.printingType == some "Normal" && truthyPrice e.marketPrice)).head?
      from (List.filter_head? _ _).symm]
  cases prices.filter (fun e => e.printingType == some "Foil" && truthyPrice e.marketPrice) with
  | nil =>
    cases prices.filter (fun e => e.printingType == some "Normal" && truthyPrice e.marketPrice) with
    | nil => rfl
    | cons a t => rfl
  | cons a t => rfl

end PriceTracker
